import Mathlib

/-!
Verification development for the call-admission and dispatch controller in
`src/programming-challenge/src/App.tsx`: a sliding-window `RateLimiter`
class gating an expensive lookup, and a debounced dispatcher (`useDebounce`)
coalescing bursts of input events into a single delayed lookup call.

Times are modelled as natural-number milliseconds (`Date.now()` values),
with JavaScript's `now - t` rendered as truncated natural subtraction;
for a clock that never runs backwards (every stored timestamp is at most
`now`) the two agree, and all timing claims concern such runs.
The wrapped asynchronous lookup is modelled as a pure fallible function
`A → Except E T`: a resolved promise is `.ok`, a rejected promise is
`.error`, and `await`'s propagation of a rejection is the `.error`
branch of `invoke`'s result.
-/

namespace Air4You

/-- A row of `mockData`: `{ id, name, description }`. -/
structure Persons where
  id : Nat
  name : String
  description : String

deriving instance DecidableEq, Repr for Persons

/-- The `mockData` array used by both lookup functions. -/
def mockData : List Persons :=
  [⟨1, "Alice", "Software Engineer"⟩,
   ⟨2, "Alina", "Software Engineer"⟩,
   ⟨3, "Alixa", "Software Engineer"⟩,
   ⟨4, "Bob", "Data Scientist"⟩,
   ⟨5, "Charlie", "Product Manager"⟩,
   ⟨6, "Charlito", "Product Manager"⟩,
   ⟨7, "Diana", "UX Designer"⟩]

/-- Boolean list-prefix test (executable form of JS `startsWith` on characters). -/
def prefixOfB : List Char → List Char → Bool
  | [], _ => true
  | _ :: _, [] => false
  | a :: as, b :: bs => a == b && prefixOfB as bs

/-- Boolean list-infix test (executable form of JS `includes` on characters). -/
def infixOfB (needle : List Char) : List Char → Bool
  | [] => prefixOfB needle []
  | b :: bs => prefixOfB needle (b :: bs) || infixOfB needle bs

/-- Case-insensitive substring test: `haystack.toLowerCase().includes(needle.toLowerCase())`. -/
def includesLower (haystack needle : String) : Bool :=
  infixOfB needle.toLower.toList haystack.toLower.toList

/-- The simulated `search` function: filters `mockData` by case-insensitive
substring match on `name`; always resolves (never rejects). -/
def search (query : String) : Except Empty (List Persons) :=
  .ok (mockData.filter (fun item => includesLower item.name query))

/-- `invoke`'s result type: `Success<T> = {type:"success", data:T}` or
`Failure = {type:"failure"}` (the rejected-admission variant). -/
inductive InvokeResult (T : Type) where
  | success (data : T)
  | failure

deriving instance DecidableEq, Repr for InvokeResult

/-- The `RateLimiter<T, A>` class state: configuration (`maxRequests`,
`timeWindow`, wrapped function `func`), the mutable `timestamps` array and
the public `error` field (`string | null`). -/
structure RateLimiter (T A E : Type) where
  maxRequests : Nat
  timeWindow : Nat
  func : A → Except E T
  timestamps : List Nat
  error : Option String

/-- The constructor `new RateLimiter(maxRequests, timeWindow, func)`:
`timestamps` starts `[]` and `error` starts `null`. -/
def mkRateLimiter {T A E : Type} (maxRequests timeWindow : Nat)
    (func : A → Except E T) : RateLimiter T A E :=
  { maxRequests := maxRequests, timeWindow := timeWindow, func := func,
    timestamps := [], error := none }

/-- `Math.ceil(a / b)` for natural `a` and positive natural `b`. -/
def ceilDiv (a b : Nat) : Nat := (a + b - 1) / b

/-- Renders a `number | null` the way a JS template literal does. -/
def numStr : Option Nat → String
  | some n => toString n
  | none => "null"

/-- The error message `Rate exceeded, please wait ${remainingTime} seconds.` -/
def rateMsg (remainingTime : Option Nat) : String :=
  "Rate exceeded, please wait " ++ numStr remainingTime ++ " seconds."

namespace RateLimiter

variable {T A E : Type}

/-- `calculateRemainingTime()`: returns the remaining seconds (`Math.ceil`
of `(timeWindow - timeElapsed) / 1000`) or `null`; as a side effect it
clears `error` when the earliest timestamp has fully elapsed. The state
component of the pair is the limiter after the call. -/
def calculateRemainingTime (s : RateLimiter T A E) (now : Nat) :
    RateLimiter T A E × Option Nat :=
  match s.timestamps with
  | [] => (s, none)
  | earliestTimestamp :: _ =>
    let timeElapsed := now - earliestTimestamp
    if s.timeWindow ≤ timeElapsed then
      ({ s with error := none }, none)
    else
      (s, some (ceilDiv (s.timeWindow - timeElapsed) 1000))

/-- `updateErrorTime()`: if the stored sequence is at capacity, set `error`
to the rate-exceeded message with the computed remaining time; then, if
`calculateRemainingTime()` is `null`, clear `error`. -/
def updateErrorTime (s : RateLimiter T A E) (now : Nat) : RateLimiter T A E :=
  let s1 :=
    if s.maxRequests ≤ s.timestamps.length then
      let p := calculateRemainingTime s now
      { p.1 with error := some (rateMsg p.2) }
    else s
  let p2 := calculateRemainingTime s1 now
  match p2.2 with
  | none => { p2.1 with error := none }
  | some _ => p2.1

/-- `invoke(...args)`: prune timestamps with `now - timestamp >= timeWindow`,
reject if still at capacity, otherwise record `now`, clear `error` and run
the wrapped function, whose rejection propagates as `.error`. The timestamp
is committed before the wrapped call runs, so it is retained even when the
wrapped call fails. -/
def invoke (s : RateLimiter T A E) (now : Nat) (args : A) :
    RateLimiter T A E × Except E (InvokeResult T) :=
  let pruned := s.timestamps.filter (fun timestamp => now - timestamp < s.timeWindow)
  if s.maxRequests ≤ pruned.length then
    ({ s with timestamps := pruned }, .ok .failure)
  else
    let s' := { s with timestamps := pruned ++ [now], error := none }
    match s.func args with
    | .ok result => (s', .ok (.success result))
    | .error e => (s', .error e)

end RateLimiter

/-- Whether an `invoke` outcome passed admission: everything except the
`{type:"failure"}` rejection (a propagated lookup failure still counts as
an admitted call). -/
def isAdmitted {T E : Type} : Except E (InvokeResult T) → Bool
  | .ok .failure => false
  | _ => true

/-- Runs a sequence of `invoke` calls at the given times with the given
arguments, returning each call's admission outcome in order. -/
def runInvokes {T A E : Type} (s : RateLimiter T A E) :
    List (Nat × A) → List Bool
  | [] => []
  | (now, args) :: rest =>
    isAdmitted (s.invoke now args).2 :: runInvokes (s.invoke now args).1 rest

/-- The module-level instance: `new RateLimiter(2, 15000, search)`. -/
def limiter : RateLimiter (List Persons) String Empty :=
  mkRateLimiter 2 15000 search

/-- One step of the limiter's public interface: an `invoke` call or a
poll of `updateErrorTime` (the 1-second interval in `App`). -/
inductive LimiterOp (A : Type) where
  | invokeOp (now : Nat) (args : A)
  | pollOp (now : Nat)

/-- Applies one public operation to the limiter state. -/
def applyOp {T A E : Type} (s : RateLimiter T A E) : LimiterOp A → RateLimiter T A E
  | .invokeOp now args => (s.invoke now args).1
  | .pollOp now => s.updateErrorTime now

/-- Applies a whole sequence of public operations. -/
def runOps {T A E : Type} (s : RateLimiter T A E) (ops : List (LimiterOp A)) :
    RateLimiter T A E :=
  ops.foldl applyOp s

/-- Modelled from the spec: the error-state derivation of §4.1, written
from the spec's own words — `limited(ceil((windowMs - (now - earliestTimestamp)) / 1000))`
when the sequence has length ≥ `maxRequests` and the elapsed time since the
earliest entry is `< windowMs`, `none` otherwise. Used only to compare the
code's recomputed `error` against the spec's derivation. -/
def errorStateSpec (maxRequests timeWindow : Nat) (timestamps : List Nat)
    (now : Nat) : Option Nat :=
  match timestamps with
  | [] => none
  | earliestTimestamp :: _ =>
    if maxRequests ≤ timestamps.length ∧ now - earliestTimestamp < timeWindow then
      some (ceilDiv (timeWindow - (now - earliestTimestamp)) 1000)
    else none

/-!
The debounced dispatcher. `useDebounce` re-runs its effect on every change
of `query`: the effect schedules a handler `delay` ms later and its cleanup
(run when the next change arrives, or at teardown) cancels the still-pending
handler. We model the stream of effect runs as a list of timed input events,
in order of arrival. An event's handler fires — at `time + delay` — exactly
when no later event arrives strictly before that moment (a later event's
cleanup would `clearTimeout` it); the last event of the run always fires.
Only when the handler fires does it inspect the query: a non-empty query
calls the target lookup and publishes its result, an empty query publishes
the caller-supplied initial value without calling the lookup.
-/

/-- One `query` change observed by the debounce effect: its arrival time and
the new query value. -/
structure DebounceEvent where
  time : Nat
  query : String

deriving instance DecidableEq, Repr for DebounceEvent

/-- The events whose scheduled handler actually fires: an event survives iff
the next event does not arrive strictly within `delay` of it. -/
def firedEvents (delay : Nat) : List DebounceEvent → List DebounceEvent
  | [] => []
  | [e] => [e]
  | e1 :: e2 :: rest =>
    if e2.time < e1.time + delay then firedEvents delay (e2 :: rest)
    else e1 :: firedEvents delay (e2 :: rest)

/-- Each fired event paired with the time its handler runs: `setTimeout`
schedules it `delay` ms after the event, independent of the query value. -/
def firedSchedule (delay : Nat) (events : List DebounceEvent) :
    List (Nat × DebounceEvent) :=
  (firedEvents delay events).map (fun e => (e.time + delay, e))

/-- The arguments of the lookup calls actually made, in order: a fired
handler calls the target function only when its query is non-empty. -/
def lookupCalls (delay : Nat) (events : List DebounceEvent) : List String :=
  ((firedEvents delay events).filter (fun e => 0 < e.query.length)).map
    (fun e => e.query)

/-- The values published by `setValue`, in order: a fired handler publishes
the lookup's result for a non-empty query and `initialValue` for an empty
one. -/
def publishedValues (initialValue : List Persons)
    (targetFunction : String → List Persons) (delay : Nat)
    (events : List DebounceEvent) : List (List Persons) :=
  (firedEvents delay events).map
    (fun e => if 0 < e.query.length then targetFunction e.query else initialValue)

/-- Whether every event after the first arrives strictly within `delay` of
its predecessor (a single rapid burst). -/
def burstWithin (delay : Nat) : List DebounceEvent → Bool
  | [] => true
  | [_] => true
  | e1 :: e2 :: rest => e2.time < e1.time + delay && burstWithin delay (e2 :: rest)

/-- The `autocomplete` function: filters `mockData` by case-insensitive
prefix match on `name`; always resolves. -/
def autocomplete (query : String) : List Persons :=
  mockData.filter (fun item => prefixOfB query.toLower.toList item.name.toLower.toList)

/-- A wrapped lookup that always rejects, used to exercise failure
propagation on concrete inputs. -/
def failingLookup : Unit → Except String Nat := fun _ => .error "lookup failed"

/-- A limiter wrapping the always-failing lookup. -/
def failLimiter : RateLimiter Nat Unit String := mkRateLimiter 2 15000 failingLookup

/-! ### Helper lemmas -/

/-- Keeping the entries with `now - t < w` is the same as removing the
strictly expired ones (those with `now - t ≥ w`). -/
lemma filter_not_le_eq (w now : Nat) (ts : List Nat) :
    ts.filter (fun t => !decide (w ≤ now - t)) =
      ts.filter (fun t => decide (now - t < w)) := by
  have hfun : (fun t => !decide (w ≤ now - t)) = (fun t => decide (now - t < w)) := by
    funext t
    rw [← decide_not]
    exact decide_eq_decide.2 Nat.not_le
  rw [hfun]

/-- `ceilDiv` is monotone in the dividend. -/
lemma ceilDiv_le_ceilDiv {a a' b : Nat} (h : a ≤ a') : ceilDiv a b ≤ ceilDiv a' b :=
  Nat.div_le_div_right (Nat.sub_le_sub_right (Nat.add_le_add_right h b) 1)

/-- `ceilDiv a 1000` is at least one when `a` is positive. -/
lemma one_le_ceilDiv {a : Nat} (h : 1 ≤ a) : 1 ≤ ceilDiv a 1000 := by
  unfold ceilDiv
  rw [Nat.one_le_div_iff (by norm_num)]
  omega

/-- `calculateRemainingTime` touches only the `error` field of the state. -/
lemma calculateRemainingTime_only_error {T A E : Type} (s : RateLimiter T A E)
    (now : Nat) :
    (s.calculateRemainingTime now).1 =
      { s with error := (s.calculateRemainingTime now).1.error } := by
  obtain ⟨m, w, f, ts, err⟩ := s
  cases ts with
  | nil => rfl
  | cons e rest =>
    by_cases h : w ≤ now - e <;>
      simp [RateLimiter.calculateRemainingTime, h]

/-- Closed form of `updateErrorTime`: clears `error` once the earliest
timestamp has fully elapsed (or the sequence is empty), sets the
rate-exceeded message when the sequence is at capacity and the window is
still running, and otherwise leaves the state alone. -/
lemma updateErrorTime_eq {T A E : Type} (s : RateLimiter T A E) (now : Nat) :
    s.updateErrorTime now =
      match s.timestamps with
      | [] => { s with error := none }
      | e :: _ =>
        if s.timeWindow ≤ now - e then { s with error := none }
        else if s.maxRequests ≤ s.timestamps.length then
          { s with error := some (rateMsg (some (ceilDiv (s.timeWindow - (now - e)) 1000))) }
        else s := by
  obtain ⟨m, w, f, ts, err⟩ := s
  cases ts with
  | nil =>
    by_cases hm : m ≤ 0 <;>
      simp [RateLimiter.updateErrorTime, RateLimiter.calculateRemainingTime, hm]
  | cons e rest =>
    by_cases hw : w ≤ now - e <;> by_cases hm : m ≤ rest.length + 1 <;>
      simp [RateLimiter.updateErrorTime, RateLimiter.calculateRemainingTime, hw, hm]

/-- One application of `updateErrorTime` already reaches the fixed point:
a second poll at the same instant changes nothing. -/
lemma updateErrorTime_idem_step {T A E : Type} (s : RateLimiter T A E) (now : Nat) :
    (s.updateErrorTime now).updateErrorTime now = s.updateErrorTime now := by
  rw [updateErrorTime_eq s now]
  obtain ⟨m, w, f, ts, err⟩ := s
  cases ts with
  | nil => rw [updateErrorTime_eq]
  | cons e rest =>
    by_cases hw : w ≤ now - e <;> by_cases hm : m ≤ rest.length + 1 <;>
      simp [updateErrorTime_eq, hw, hm]

/-! ### Claim theorems -/

/-- Claim C1: sliding-window admission. In general, an `invoke` call is
admitted exactly when, after removing the timestamps `t` with
`now - t ≥ timeWindow`, fewer than `maxRequests` timestamps remain; and
concretely, with `maxRequests = 2` and `windowMs = 15000`, calls at
`t = 0, 1, 2` yield admitted, admitted, rejected and a further call at
`t = 15001` is admitted again. -/
theorem invoke_admission_iff {T A E : Type} (s : RateLimiter T A E)
    (now : Nat) (args : A) :
    isAdmitted (s.invoke now args).2 =
      decide ((s.timestamps.filter (fun t => !decide (s.timeWindow ≤ now - t))).length
        < s.maxRequests)
    ∧ runInvokes limiter [(0, "ali"), (1, "ali"), (2, "ali"), (15001, "ali")]
        = [true, true, false, true] := by
  refine ⟨?_, by decide⟩
  rw [filter_not_le_eq]
  unfold RateLimiter.invoke
  dsimp only
  by_cases h :
      s.maxRequests ≤ (s.timestamps.filter fun t => decide (now - t < s.timeWindow)).length
  · rw [if_pos h]
    have hn : ¬ (s.timestamps.filter fun t => decide (now - t < s.timeWindow)).length
        < s.maxRequests := Nat.not_lt.2 h
    simp [isAdmitted, hn]
  · rw [if_neg h]
    have hp : (s.timestamps.filter fun t => decide (now - t < s.timeWindow)).length
        < s.maxRequests := Nat.not_le.1 h
    cases hf : s.func args <;> simp [isAdmitted, hf, hp]

/-- Claim C2: on a rejected `invoke`, the wrapped lookup is never consulted
and no timestamp is appended — the state change is exactly the pruning of
the strictly expired entries (`now - t ≥ timeWindow`), the `error` field is
untouched, and the returned value is the rejected variant. The conclusion
holds for the limiter with its wrapped function replaced by an arbitrary
`g`, so the outcome does not depend on the wrapped lookup at all. -/
theorem invoke_rejected_frame {T A E : Type} (s : RateLimiter T A E)
    (now : Nat) (args : A) (g : A → Except E T)
    (h : s.maxRequests ≤
      (s.timestamps.filter (fun t => !decide (s.timeWindow ≤ now - t))).length) :
    s.invoke now args =
      ({ s with timestamps := s.timestamps.filter (fun t => !decide (s.timeWindow ≤ now - t)) },
        .ok .failure)
    ∧ (RateLimiter.invoke { s with func := g } now args).2 = .ok .failure := by
  rw [filter_not_le_eq] at h ⊢
  constructor
  · unfold RateLimiter.invoke
    dsimp only
    rw [if_pos h]
  · unfold RateLimiter.invoke
    dsimp only
    rw [if_pos h]

/-- Witness for claim C2: with two live timestamps and `maxRequests = 2`, a
call at `t = 2` is rejected, the state keeps exactly the pruned timestamps,
and the outcome is the same under a replaced wrapped function. -/
theorem invoke_rejected_frame_witness :
    RateLimiter.invoke { limiter with timestamps := [0, 1] } 2 "ali" =
      ({ limiter with timestamps :=
          ([0, 1] : List Nat).filter (fun t => !decide ((15000 : Nat) ≤ 2 - t)) },
        .ok .failure)
    ∧ (RateLimiter.invoke
        { { limiter with timestamps := [0, 1] } with func := search } 2 "ali").2 =
        .ok .failure :=
  invoke_rejected_frame { limiter with timestamps := [0, 1] } 2 "ali" search (by decide)

/-- Claim C3: an admitted `invoke` passes the wrapped lookup's outcome
through unchanged — a successful value `v` comes back as the admitted
variant carrying exactly `v`, and a lookup failure propagates to the caller
as-is instead of being turned into the rejected variant. -/
theorem invoke_passthrough {T A E : Type} (s : RateLimiter T A E)
    (now : Nat) (args : A)
    (h : (s.timestamps.filter (fun t => !decide (s.timeWindow ≤ now - t))).length
      < s.maxRequests) :
    (s.invoke now args).2 = (s.func args).map InvokeResult.success := by
  rw [filter_not_le_eq] at h
  unfold RateLimiter.invoke
  dsimp only
  rw [if_neg (Nat.not_le.2 h)]
  cases hf : s.func args <;> simp [hf, Except.map]

/-- Witness for claim C3: a fresh limiter around an always-failing lookup
admits the call and returns the propagated failure, exactly
`Except.map` of the wrapped function's outcome. -/
theorem invoke_passthrough_witness :
    (failLimiter.invoke 0 ()).2 = (failLimiter.func ()).map InvokeResult.success :=
  invoke_passthrough failLimiter 0 () (by decide)

/-- Claim C8: polling is idempotent — iterating `updateErrorTime` any
positive number of times at one instant, with no intervening `invoke`,
produces the same limiter state (in particular the same `error` value) as
polling once. -/
theorem updateErrorTime_idempotent {T A E : Type} (s : RateLimiter T A E)
    (now n : Nat) :
    (fun x : RateLimiter T A E => x.updateErrorTime now)^[n + 1] s =
      s.updateErrorTime now := by
  induction n with
  | zero => rfl
  | succ k ih =>
    rw [Function.iterate_succ_apply']
    rw [ih]
    exact updateErrorTime_idem_step s now

/-- Claim C9: the error-state reads are pure with respect to the stored
timestamps — neither `calculateRemainingTime` nor `updateErrorTime` adds,
removes or reorders entries of the `timestamps` sequence, and neither
changes the configuration or the wrapped function; only `error` may
change. -/
theorem errorRead_frame {T A E : Type} (s : RateLimiter T A E) (now : Nat) :
    (s.calculateRemainingTime now).1.timestamps = s.timestamps
    ∧ (s.calculateRemainingTime now).1.maxRequests = s.maxRequests
    ∧ (s.calculateRemainingTime now).1.timeWindow = s.timeWindow
    ∧ (s.calculateRemainingTime now).1.func = s.func
    ∧ (s.updateErrorTime now).timestamps = s.timestamps
    ∧ (s.updateErrorTime now).maxRequests = s.maxRequests
    ∧ (s.updateErrorTime now).timeWindow = s.timeWindow
    ∧ (s.updateErrorTime now).func = s.func := by
  have h1 := calculateRemainingTime_only_error s now
  have h2 := updateErrorTime_eq s now
  rw [h1, h2]
  obtain ⟨m, w, f, ts, err⟩ := s
  cases ts with
  | nil => simp
  | cons e rest =>
    by_cases hw : w ≤ now - e <;> by_cases hm : m ≤ rest.length + 1 <;>
      simp [hw, hm]

/-- The reachable-state invariant behind the error derivation: a recorded
error implies the stored sequence is at capacity. Every public operation
preserves it. -/
lemma applyOp_errorConsistent {T A E : Type} (s : RateLimiter T A E)
    (op : LimiterOp A)
    (h : s.error = none ∨ s.maxRequests ≤ s.timestamps.length) :
    (applyOp s op).error = none
    ∨ (applyOp s op).maxRequests ≤ (applyOp s op).timestamps.length := by
  cases op with
  | invokeOp now args =>
    simp only [applyOp]
    unfold RateLimiter.invoke
    dsimp only
    by_cases hc : s.maxRequests ≤
        (s.timestamps.filter fun t => decide (now - t < s.timeWindow)).length
    · rw [if_pos hc]
      exact Or.inr hc
    · rw [if_neg hc]
      cases hf : s.func args <;> exact Or.inl rfl
  | pollOp now =>
    simp only [applyOp]
    rw [updateErrorTime_eq s now]
    obtain ⟨m, w, f, ts, err⟩ := s
    cases ts with
    | nil => exact Or.inl rfl
    | cons e rest =>
      by_cases hw : w ≤ now - e
      · simp [hw]
      · by_cases hm : m ≤ rest.length + 1
        · simp [hw, hm]
        · simpa [hw, hm] using h

/-- Every limiter state reachable from a fresh construction satisfies the
error-consistency invariant assumed by the error-derivation theorem. -/
lemma runOps_errorConsistent {T A E : Type} (m w : Nat) (f : A → Except E T)
    (ops : List (LimiterOp A)) :
    (runOps (mkRateLimiter m w f) ops).error = none
    ∨ (runOps (mkRateLimiter m w f) ops).maxRequests ≤
        (runOps (mkRateLimiter m w f) ops).timestamps.length := by
  suffices hgen : ∀ (l : List (LimiterOp A)) (s : RateLimiter T A E),
      (s.error = none ∨ s.maxRequests ≤ s.timestamps.length) →
      (runOps s l).error = none
      ∨ (runOps s l).maxRequests ≤ (runOps s l).timestamps.length by
    exact hgen ops (mkRateLimiter m w f) (Or.inl rfl)
  intro l
  induction l with
  | nil => intro s h; exact h
  | cons op rest ih => intro s h; exact ih (applyOp s op) (applyOp_errorConsistent s op h)

/-- Claim C4: after the polling read (`updateErrorTime`), the `error` field
equals the spec's derivation — the rate-exceeded message carrying
`remaining = ceil((windowMs - (now - earliestTimestamp)) / 1000)` exactly
when the sequence has length ≥ `maxRequests` and the elapsed time since the
earliest entry is `< windowMs`, and `none` otherwise; and whenever the
derivation is limited, the remaining value is at least one. The hypothesis
is the reachable-state invariant that a recorded error implies a sequence
at capacity (a fresh limiter satisfies it, and every operation preserves
it). -/
theorem updateErrorTime_matches_spec {T A E : Type} (s : RateLimiter T A E)
    (now : Nat)
    (hinv : s.error = none ∨ s.maxRequests ≤ s.timestamps.length) :
    (s.updateErrorTime now).error =
      Option.map (fun r => rateMsg (some r))
        (errorStateSpec s.maxRequests s.timeWindow s.timestamps now)
    ∧ 1 ≤ (errorStateSpec s.maxRequests s.timeWindow s.timestamps now).getD 1 := by
  rw [updateErrorTime_eq s now]
  obtain ⟨m, w, f, ts, err⟩ := s
  cases ts with
  | nil => simp [errorStateSpec]
  | cons e rest =>
    by_cases hw : w ≤ now - e
    · have hnlt : ¬ now - e < w := Nat.not_lt.2 hw
      by_cases hm : m ≤ rest.length + 1 <;>
        simp [errorStateSpec, hw, hm, hnlt]
    · have hlt : now - e < w := Nat.not_le.1 hw
      by_cases hm : m ≤ rest.length + 1
      · have h1 : 1 ≤ w - (now - e) := by omega
        refine ⟨by simp [errorStateSpec, hw, hm, hlt], ?_⟩
        simp only [errorStateSpec]
        simp [hm, hlt]
        exact one_le_ceilDiv h1
      · rcases hinv with herr | hlen
        · simp only [RateLimiter.error] at herr
          simp [errorStateSpec, hw, hm, hlt, herr]
        · exact absurd hlen hm

/-- Witness for claim C4: two timestamps `[0, 1]` against capacity two at
`now = 2000` — the recomputed error is the limited message and the spec's
remaining value (13 seconds) is at least one. -/
theorem updateErrorTime_matches_spec_witness :
    (RateLimiter.updateErrorTime { limiter with timestamps := [0, 1] } 2000).error =
      Option.map (fun r => rateMsg (some r)) (errorStateSpec 2 15000 [0, 1] 2000)
    ∧ 1 ≤ (errorStateSpec 2 15000 [0, 1] 2000).getD 1 :=
  updateErrorTime_matches_spec { limiter with timestamps := [0, 1] } 2000 (Or.inl rfl)

/-- Claim C7: with a non-empty timestamp sequence and no intervening
`invoke`, a second poll of `calculateRemainingTime` at a later instant
yields `none` exactly once the elapsed time since the earliest retained
timestamp reaches `timeWindow`, and the returned remaining value never
increases between the two polls (reading a missing value as zero). -/
theorem calculateRemainingTime_monotone {T A E : Type} (s : RateLimiter T A E)
    (now now' e : Nat) (rest : List Nat)
    (hts : s.timestamps = e :: rest) (hle : now ≤ now') :
    (((s.calculateRemainingTime now).1.calculateRemainingTime now').2 = none
      ↔ s.timeWindow ≤ now' - e)
    ∧ ((s.calculateRemainingTime now).1.calculateRemainingTime now').2.getD 0
        ≤ ((s.calculateRemainingTime now).2).getD 0 := by
  obtain ⟨m, w, f, ts, err⟩ := s
  simp only at hts
  subst hts
  have hee : now - e ≤ now' - e := Nat.sub_le_sub_right hle e
  by_cases h1 : w ≤ now - e
  · have h2 : w ≤ now' - e := le_trans h1 hee
    simp [RateLimiter.calculateRemainingTime, h1, h2]
  · by_cases h2 : w ≤ now' - e
    · simp [RateLimiter.calculateRemainingTime, h1, h2]
    · have hmono : w - (now' - e) ≤ w - (now - e) := Nat.sub_le_sub_left hee w
      simp [RateLimiter.calculateRemainingTime, h1, h2]
      exact ceilDiv_le_ceilDiv hmono

/-- Witness for claim C7: one timestamp at `0` with a 15-second window,
polled at `now = 1000` and again at `now' = 2000`: the second poll is still
limited (2000 − 0 < 15000) and its value 13 is at most the first poll's
14. -/
theorem calculateRemainingTime_monotone_witness :
    (((RateLimiter.calculateRemainingTime { limiter with timestamps := [0] } 1000).1.calculateRemainingTime 2000).2 = none
      ↔ (15000 : Nat) ≤ 2000 - 0)
    ∧ ((RateLimiter.calculateRemainingTime { limiter with timestamps := [0] } 1000).1.calculateRemainingTime 2000).2.getD 0
        ≤ ((RateLimiter.calculateRemainingTime { limiter with timestamps := [0] } 1000).2).getD 0 :=
  calculateRemainingTime_monotone { limiter with timestamps := [0] } 1000 2000 0 []
    rfl (by decide)

/-- `updateErrorTime` keeps the stored timestamps and the capacity. -/
lemma updateErrorTime_fields {T A E : Type} (s : RateLimiter T A E) (now : Nat) :
    (s.updateErrorTime now).timestamps = s.timestamps
    ∧ (s.updateErrorTime now).maxRequests = s.maxRequests := by
  rw [updateErrorTime_eq s now]
  obtain ⟨m, w, f, ts, err⟩ := s
  cases ts with
  | nil => simp
  | cons e rest =>
    by_cases hw : w ≤ now - e <;> by_cases hm : m ≤ rest.length + 1 <;>
      simp [hw, hm]

/-- Each public operation preserves the bound `timestamps.length ≤
maxRequests` and never changes `maxRequests`. -/
lemma applyOp_invariant {T A E : Type} (s : RateLimiter T A E) (op : LimiterOp A)
    (h : s.timestamps.length ≤ s.maxRequests) :
    (applyOp s op).timestamps.length ≤ (applyOp s op).maxRequests
    ∧ (applyOp s op).maxRequests = s.maxRequests := by
  cases op with
  | pollOp now =>
    have hf := updateErrorTime_fields s now
    simp only [applyOp, hf.1, hf.2]
    exact ⟨h, trivial⟩
  | invokeOp now args =>
    simp only [applyOp]
    unfold RateLimiter.invoke
    dsimp only
    by_cases hc : s.maxRequests ≤
        (s.timestamps.filter fun t => decide (now - t < s.timeWindow)).length
    · rw [if_pos hc]
      exact ⟨le_trans (List.length_filter_le _ _) h, rfl⟩
    · rw [if_neg hc]
      have hlt := Nat.not_le.1 hc
      cases hf : s.func args <;>
      · refine ⟨?_, rfl⟩
        simp only [List.length_append, List.length_cons, List.length_nil]
        omega

/-- Running any sequence of public operations keeps the bound and the
capacity. -/
lemma runOps_invariant {T A E : Type} :
    ∀ (ops : List (LimiterOp A)) (s : RateLimiter T A E),
      s.timestamps.length ≤ s.maxRequests →
      (runOps s ops).timestamps.length ≤ (runOps s ops).maxRequests
      ∧ (runOps s ops).maxRequests = s.maxRequests := by
  intro ops
  induction ops with
  | nil => intro s h; exact ⟨h, rfl⟩
  | cons op rest ih =>
    intro s h
    have hstep := applyOp_invariant s op h
    have hrest := ih (applyOp s op) hstep.1
    exact ⟨hrest.1, hrest.2.trans hstep.2⟩

/-- Claim C10: starting from a freshly constructed limiter, after any
sequence of `invoke` and `updateErrorTime` calls the stored timestamp
sequence has length at most `maxRequests` — `invoke` appends only when the
pruned length is strictly below capacity and no other operation appends. -/
theorem timestamps_length_bounded {T A E : Type} (m w : Nat)
    (f : A → Except E T) (ops : List (LimiterOp A)) :
    (runOps (mkRateLimiter m w f) ops).timestamps.length ≤ m := by
  have h := runOps_invariant ops (mkRateLimiter m w f) (by simp [mkRateLimiter])
  exact le_of_le_of_eq h.1 h.2

/-- In a single rapid burst only the last event's handler survives: every
earlier event is superseded within `delay` and its timer is cancelled. -/
lemma firedEvents_burst (delay : Nat) :
    ∀ (evs : List DebounceEvent) (e : DebounceEvent),
      burstWithin delay (evs ++ [e]) = true →
      firedEvents delay (evs ++ [e]) = [e] := by
  intro evs
  induction evs with
  | nil => intro e _; rfl
  | cons e1 rest ih =>
    intro e hb
    cases rest with
    | nil =>
      simp only [List.cons_append, List.nil_append] at hb ⊢
      simp only [burstWithin, Bool.and_eq_true, decide_eq_true_eq] at hb
      simp [firedEvents, hb.1]
    | cons e2 rest2 =>
      simp only [List.cons_append] at hb ⊢
      simp only [burstWithin, Bool.and_eq_true, decide_eq_true_eq] at hb
      rw [firedEvents, if_pos hb.1]
      exact ih e hb.2

/-- Claim C5: debounce is last-writer-wins. For a burst of input events each
arriving strictly within `delay` of the previous one, exactly one lookup
call is made, its argument is the last event's query, the only published
value is that query's result, and no superseded intermediate query
produces a call or a publication; concretely, rapid `onInput` of `"a"`,
`"al"`, `"ali"` yields exactly one lookup call, with argument `"ali"`. -/
theorem debounce_last_writer_wins (delay : Nat) (evs : List DebounceEvent)
    (elast : DebounceEvent) (init : List Persons) (f : String → List Persons)
    (hb : burstWithin delay (evs ++ [elast]) = true)
    (hq : 0 < elast.query.length) :
    lookupCalls delay (evs ++ [elast]) = [elast.query]
    ∧ publishedValues init f delay (evs ++ [elast]) = [f elast.query]
    ∧ lookupCalls 250 [⟨0, "a"⟩, ⟨100, "al"⟩, ⟨200, "ali"⟩] = ["ali"] := by
  have hf := firedEvents_burst delay evs elast hb
  refine ⟨?_, ?_, by decide⟩
  · simp [lookupCalls, hf, hq]
  · simp [publishedValues, hf, hq]

/-- Witness for claim C5: the burst `"a"`, `"al"`, `"ali"` at 0, 100 and
200 ms with a 250 ms delay makes exactly one `autocomplete` call, for
`"ali"`. -/
theorem debounce_last_writer_wins_witness :
    lookupCalls 250 ([⟨0, "a"⟩, ⟨100, "al"⟩] ++ [⟨200, "ali"⟩]) = ["ali"]
    ∧ publishedValues [] autocomplete 250 ([⟨0, "a"⟩, ⟨100, "al"⟩] ++ [⟨200, "ali"⟩])
        = [autocomplete "ali"]
    ∧ lookupCalls 250 [⟨0, "a"⟩, ⟨100, "al"⟩, ⟨200, "ali"⟩] = ["ali"] :=
  debounce_last_writer_wins 250 [⟨0, "a"⟩, ⟨100, "al"⟩] ⟨200, "ali"⟩ [] autocomplete
    (by decide) (by decide)

/-- Claim C6: an empty query scheduled after a surviving non-empty one still
waits the full `delay` before its handler runs — the handler fires at
`t + delay` exactly as a real lookup would — and when it fires it publishes
the caller-supplied baseline without calling the lookup; the choice between
lookup and baseline is made by the fired handler, not at scheduling time. -/
theorem debounce_empty_query_full_delay (init : List Persons)
    (f : String → List Persons) (delay t1 t2 : Nat) (q1 : String)
    (hq : 0 < q1.length) (ht : t1 + delay ≤ t2) :
    firedSchedule delay [⟨t1, q1⟩, ⟨t2, ""⟩] =
      [(t1 + delay, ⟨t1, q1⟩), (t2 + delay, ⟨t2, ""⟩)]
    ∧ publishedValues init f delay [⟨t1, q1⟩, ⟨t2, ""⟩] = [f q1, init]
    ∧ lookupCalls delay [⟨t1, q1⟩, ⟨t2, ""⟩] = [q1] := by
  have hnot : ¬ t2 < t1 + delay := Nat.not_lt.2 ht
  have hfired : firedEvents delay [⟨t1, q1⟩, ⟨t2, ""⟩] = [⟨t1, q1⟩, ⟨t2, ""⟩] := by
    simp [firedEvents, hnot]
  refine ⟨?_, ?_, ?_⟩ <;>
    simp [firedSchedule, publishedValues, lookupCalls, hfired, hq]

/-- Witness for claim C6: `"ali"` at 0 ms then the empty query at 300 ms
with a 250 ms delay — the baseline is published at 550 ms, a full delay
after the empty input, and only `"ali"` ever reaches the lookup. -/
theorem debounce_empty_query_full_delay_witness :
    firedSchedule 250 [⟨0, "ali"⟩, ⟨300, ""⟩] =
      [(250, ⟨0, "ali"⟩), (550, ⟨300, ""⟩)]
    ∧ publishedValues [] autocomplete 250 [⟨0, "ali"⟩, ⟨300, ""⟩]
        = [autocomplete "ali", []]
    ∧ lookupCalls 250 [⟨0, "ali"⟩, ⟨300, ""⟩] = ["ali"] :=
  debounce_empty_query_full_delay [] autocomplete 250 0 300 "ali" (by decide) (by decide)

end Air4You
